/-
Verification of the stock data pipeline (IBelive).

Shallow embedding of the numeric kernels and database helpers of the
repository: the RSI computation (strategy/rsi_strategy.py), the momentum
sort/filter (strategy/momentum_strategy.py), the NaN/inf clamping
preprocessors (daily_data_manager.py, stock/daily_basic_manager.py), the
MySQL helper's error returns, singleton and transactional batch insert
(mysql_manager.py), the upsert table semantics used by the daily-data
save paths, the batched save loop of RSIStrategy.save_results, and the
status labelling of fetch_daily_data_period.

Floating point is modelled over the rationals; pandas NaN cells are
modelled explicitly where a claim depends on them.
-/
import Mathlib

/- ---------------------------------------------------------------------
RSIStrategy.calculate_rsi (strategy/rsi_strategy.py, lines 65-92).

    delta = prices.diff()
    gain = delta.where(delta > 0, 0.0)
    loss = -delta.where(delta < 0, 0.0)
    avg_gain = gain.rolling(window=period, min_periods=1).mean()
    avg_loss = loss.rolling(window=period, min_periods=1).mean()
    rs = avg_gain / avg_loss.replace(0, float('inf'))
    rsi = 100 - (100 / (1 + rs))

`prices.diff()` yields NaN at index 0; `Series.where(cond, 0.0)` maps a
NaN condition to `False`, so the NaN head of `delta` becomes 0.0 in both
`gain` and `loss`.  `avg_loss.replace(0, inf)` followed by the division
makes `rs` zero wherever the average loss is zero (finite / inf = 0.0),
which we embed as the `if al = 0 then 0` branch.
--------------------------------------------------------------------- -/

namespace RSIStrategy

/-- `prices.diff()`: element-wise difference with the previous element;
`none` models the NaN produced at index 0. pandas returns an empty
series for empty input. -/
def seriesDiff : List ℚ → List (Option ℚ)
  | [] => []
  | p :: ps => none :: (List.zipWith (fun a b => (a - b : ℚ)) ps (p :: ps)).map some

/-- `delta.where(delta > 0, 0.0)` applied to one cell: keep a positive
delta, otherwise 0.0 (a NaN condition counts as false). -/
def whereGain : Option ℚ → ℚ
  | some x => if 0 < x then x else 0
  | none => 0

/-- `-delta.where(delta < 0, 0.0)` applied to one cell: the negated kept
negative delta, otherwise 0.0. -/
def whereLoss : Option ℚ → ℚ
  | some x => -(if x < 0 then x else 0)
  | none => 0

/-- `series.rolling(window=period, min_periods=1).mean()` at position
`i`: the arithmetic mean of the window of the last `min (i+1) period`
elements ending at `i`. -/
def rollingMean (period : ℕ) (xs : List ℚ) (i : ℕ) : ℚ :=
  let w := (xs.take (i + 1)).drop (i + 1 - period)
  w.sum / (w.length : ℚ)

/-- The body of `RSIStrategy.calculate_rsi`. -/
def calculate_rsi (prices : List ℚ) (period : ℕ) : List ℚ :=
  let delta := seriesDiff prices
  let gain := delta.map whereGain
  let loss := delta.map whereLoss
  (List.range prices.length).map fun i =>
    let avg_gain := rollingMean period gain i
    let avg_loss := rollingMean period loss i
    -- avg_loss.replace(0, inf) followed by avg_gain / ... : a zero
    -- average loss becomes +inf, and finite / inf = 0.0
    let rs := if avg_loss = 0 then 0 else avg_gain / avg_loss
    100 - 100 / (1 + rs)

/-- Gain at index `j` read directly off the price list: `0` at index 0,
otherwise the positive part of the price change. Used to state the
corrected formula for `calculate_rsi`. -/
def specGain (prices : List ℚ) (j : ℕ) : ℚ :=
  if j = 0 then 0 else max (prices.getD j 0 - prices.getD (j - 1) 0) 0

/-- Loss at index `j` read directly off the price list: `0` at index 0,
otherwise the positive part of the negated price change. -/
def specLoss (prices : List ℚ) (j : ℕ) : ℚ :=
  if j = 0 then 0 else max (prices.getD (j - 1) 0 - prices.getD j 0) 0

/-- The RSI value the code computes at index `i`, written as a closed
formula: simple rolling means of `specGain`/`specLoss` over the trailing
`period`-window, RS their ratio, and `0` whenever the average loss is
zero. -/
def rsiSpecAt (prices : List ℚ) (period i : ℕ) : ℚ :=
  let ag := rollingMean period ((List.range prices.length).map (specGain prices)) i
  let al := rollingMean period ((List.range prices.length).map (specLoss prices)) i
  if al = 0 then 0 else 100 - 100 / (1 + ag / al)

/-- The whole series of closed-formula RSI values. -/
def rsiSpecList (prices : List ℚ) (period : ℕ) : List ℚ :=
  (List.range prices.length).map (rsiSpecAt prices period)

theorem length_seriesDiff (prices : List ℚ) :
    (seriesDiff prices).length = prices.length := by
  cases prices with
  | nil => rfl
  | cons p ps => simp [seriesDiff, List.length_zipWith]

theorem getD_eq_of_lt {β : Type} {l : List β} {j : ℕ} (d : β) (h : j < l.length) :
    l.getD j d = l.get ⟨j, h⟩ := by
  rw [List.getD_eq_getElem?_getD, List.getElem?_eq_getElem h]
  rfl

theorem ifPos_eq_max (d : ℚ) : (if 0 < d then d else 0) = max d 0 := by
  rcases le_or_lt d 0 with h | h
  · rw [if_neg (not_lt.mpr h), max_eq_right h]
  · rw [if_pos h, max_eq_left h.le]

theorem negIfNeg_eq_max (d : ℚ) : -(if d < 0 then d else 0) = max (-d) 0 := by
  rcases lt_or_le d 0 with h | h
  · rw [if_pos h, max_eq_left (by linarith)]
  · rw [if_neg (not_lt.mpr h), max_eq_right (by linarith), neg_zero]

theorem gain_eq_specGain (prices : List ℚ) :
    (seriesDiff prices).map whereGain
      = (List.range prices.length).map (specGain prices) := by
  cases prices with
  | nil => rfl
  | cons p ps =>
    apply List.ext_getElem
    · simp [length_seriesDiff]
    · intro j h1 h2
      simp only [List.getElem_map, List.getElem_range]
      match j with
      | 0 => simp [seriesDiff, specGain, whereGain]
      | j + 1 =>
        have hj : j < ps.length := by
          simpa [length_seriesDiff] using h1
        have hj' : j < (p :: ps).length := by simp; omega
        simp only [seriesDiff, List.getElem_cons_succ, List.getElem_map,
          List.getElem_zipWith, specGain, whereGain]
        rw [if_neg (Nat.succ_ne_zero j), Nat.add_sub_cancel,
          getD_eq_of_lt 0 (by simpa using hj), getD_eq_of_lt 0 hj']
        simp only [List.get_eq_getElem, List.getElem_cons_succ]
        exact ifPos_eq_max _

theorem loss_eq_specLoss (prices : List ℚ) :
    (seriesDiff prices).map whereLoss
      = (List.range prices.length).map (specLoss prices) := by
  cases prices with
  | nil => rfl
  | cons p ps =>
    apply List.ext_getElem
    · simp [length_seriesDiff]
    · intro j h1 h2
      simp only [List.getElem_map, List.getElem_range]
      match j with
      | 0 => simp [seriesDiff, specLoss, whereLoss]
      | j + 1 =>
        have hj : j < ps.length := by
          simpa [length_seriesDiff] using h1
        have hj' : j < (p :: ps).length := by simp; omega
        simp only [seriesDiff, List.getElem_cons_succ, List.getElem_map,
          List.getElem_zipWith, specLoss, whereLoss]
        rw [if_neg (Nat.succ_ne_zero j), Nat.add_sub_cancel,
          getD_eq_of_lt 0 hj',
          getD_eq_of_lt 0 (show j + 1 < (p :: ps).length from by
            simpa using Nat.succ_lt_succ hj)]
        simp only [List.get_eq_getElem, List.getElem_cons_succ]
        rw [show (p :: ps)[j] - ps[j] = -(ps[j] - (p :: ps)[j]) by ring,
          ← negIfNeg_eq_max]

theorem calculate_rsi_eq_spec (prices : List ℚ) (period : ℕ) :
    calculate_rsi prices period = rsiSpecList prices period := by
  unfold calculate_rsi rsiSpecList
  apply List.map_congr_left
  intro i _
  rw [gain_eq_specGain, loss_eq_specLoss]
  unfold rsiSpecAt
  by_cases h : rollingMean period ((List.range prices.length).map (specLoss prices)) i = 0
  · simp [h]
  · simp [h]

theorem whereGain_nonneg (d : Option ℚ) : 0 ≤ whereGain d := by
  cases d with
  | none => simp [whereGain]
  | some x =>
    simp only [whereGain]
    split <;> [linarith; exact le_refl 0]

theorem whereLoss_nonneg (d : Option ℚ) : 0 ≤ whereLoss d := by
  cases d with
  | none => simp [whereLoss]
  | some x =>
    simp only [whereLoss]
    split <;> [linarith; simp]

theorem rollingMean_nonneg (period : ℕ) (xs : List ℚ) (i : ℕ)
    (h : ∀ x ∈ xs, 0 ≤ x) : 0 ≤ rollingMean period xs i := by
  unfold rollingMean
  apply div_nonneg
  · apply List.sum_nonneg
    intro x hx
    exact h x (List.mem_of_mem_take (List.mem_of_mem_drop hx))
  · exact_mod_cast Nat.zero_le _

/-- C2 (counterexample): the claim that `calculate_rsi` follows Wilder's
RSI formula — in particular, that a window with only gains (average loss
zero) yields RSI 100 — is false: on the strictly increasing price series
`[1, 2, 3, 4, 5]` (only gains at every index) the code returns 0
everywhere, because `avg_loss.replace(0, inf)` makes RS zero and
`100 - 100/(1+0) = 0`; the value 100 never occurs. -/
theorem calculate_rsi_all_gains_is_zero :
    calculate_rsi [1, 2, 3, 4, 5] 14 = [0, 0, 0, 0, 0] ∧
    (100 : ℚ) ∉ calculate_rsi [1, 2, 3, 4, 5] 14 := by
  have h : calculate_rsi [1, 2, 3, 4, 5] 14 = [0, 0, 0, 0, 0] := by
    norm_num [calculate_rsi, seriesDiff, rollingMean, whereGain, whereLoss,
      List.range_succ]
  refine ⟨h, ?_⟩
  rw [h]
  norm_num

/-- C2 (amended): `calculate_rsi` returns, at each index, `100 - 100/(1+RS)`
where RS is the ratio of the simple rolling mean of gains to the simple
rolling mean of losses over the trailing `period`-window
(`min_periods=1`, not Wilder smoothing), except that whenever the
average loss is zero the result is 0 (not 100); on the fixture price
series `[10, 11, 10, 12, 11]` with the default period 14 it returns
`[0, 0, 50, 75, 60]`. -/
theorem calculate_rsi_simple_mean_formula (prices : List ℚ) (period : ℕ) :
    calculate_rsi prices period = rsiSpecList prices period ∧
    calculate_rsi [10, 11, 10, 12, 11] 14 = [0, 0, 50, 75, 60] :=
  ⟨calculate_rsi_eq_spec prices period, by
    norm_num [calculate_rsi, seriesDiff, rollingMean, whereGain, whereLoss,
      List.range_succ]⟩

/-- C7: every value produced by `calculate_rsi` lies in the closed
interval `[0, 100]` — the RSI is a bounded oscillator.  (With
`min_periods=1` the code in fact produces no NaN at all, so this covers
every output value.) -/
theorem calculate_rsi_bounded (prices : List ℚ) (period : ℕ) (v : ℚ)
    (hp : 1 ≤ period) (hv : v ∈ calculate_rsi prices period) :
    0 ≤ v ∧ v ≤ 100 := by
  unfold calculate_rsi at hv
  simp only [List.mem_map, List.mem_range] at hv
  obtain ⟨i, _, rfl⟩ := hv
  have hg : 0 ≤ rollingMean period ((seriesDiff prices).map whereGain) i := by
    apply rollingMean_nonneg
    intro x hx
    obtain ⟨d, _, rfl⟩ := List.mem_map.mp hx
    exact whereGain_nonneg d
  have hl : 0 ≤ rollingMean period ((seriesDiff prices).map whereLoss) i := by
    apply rollingMean_nonneg
    intro x hx
    obtain ⟨d, _, rfl⟩ := List.mem_map.mp hx
    exact whereLoss_nonneg d
  set ag := rollingMean period ((seriesDiff prices).map whereGain) i
  set al := rollingMean period ((seriesDiff prices).map whereLoss) i
  have hrs : 0 ≤ if al = 0 then (0 : ℚ) else ag / al := by
    split
    · exact le_refl 0
    · exact div_nonneg hg hl
  set rs := if al = 0 then (0 : ℚ) else ag / al
  have h1 : (0 : ℚ) < 1 + rs := by linarith
  constructor
  · have : 100 / (1 + rs) ≤ 100 := by
      apply div_le_self (by norm_num)
      linarith
    linarith
  · have : 0 < 100 / (1 + rs) := by positivity
    linarith

/-- Witness for C7: the bound holds at the concrete series `[1, 2]` with
period 14, whose first RSI value is 0. -/
theorem zero_mem_rsi_of_pair : (0 : ℚ) ∈ calculate_rsi [1, 2] 14 := by
  have h : calculate_rsi [1, 2] 14 = [0, 0] := by
    norm_num [calculate_rsi, seriesDiff, rollingMean, whereGain, whereLoss,
      List.range_succ]
  rw [h]
  simp

theorem calculate_rsi_bounded_witness :
    (1 ≤ 14 ∧ (0 : ℚ) ∈ calculate_rsi [1, 2] 14) ∧
      (0 ≤ (0 : ℚ) ∧ (0 : ℚ) ≤ 100) :=
  ⟨⟨by norm_num, zero_mem_rsi_of_pair⟩,
    calculate_rsi_bounded [1, 2] 14 0 (by norm_num) zero_mem_rsi_of_pair⟩

end RSIStrategy

/- ---------------------------------------------------------------------
Upsert semantics of the MySQL tables (C1).

Every periodic-data table is created with a UNIQUE KEY on
(ts_code, trade_date) (or on ts_code alone) and written through
`INSERT ... ON DUPLICATE KEY UPDATE <all data columns>`
(daily_data_manager.py `_get_daily_data_table_queries`, and the analogous
builders for weekly/monthly/index/ETF/fundamentals tables).  We embed a
table as a list of rows and one upserted row as: if a row with the same
key exists, every such row is overwritten in place with the new values;
otherwise the row is appended.  `executemany` over a batch is the left
fold of this one-row upsert.

`MomentumStrategy._save_selected_stocks_to_db`
(strategy/momentum_strategy.py, lines 299-336) is the exception: the
`momentum_selected_stocks` table has only an AUTO_INCREMENT primary key,
no unique key on the payload, and its insert statement has no
ON DUPLICATE KEY UPDATE clause, so each save appends plain rows.
--------------------------------------------------------------------- -/

section Upsert

variable {α κ : Type} [DecidableEq κ]

/-- One `INSERT ... ON DUPLICATE KEY UPDATE` of row `r` into table
`tbl`, keyed by `key`: update every row holding the key, else append. -/
def upsertRow (key : α → κ) (tbl : List α) (r : α) : List α :=
  if tbl.any (fun x => decide (key x = key r)) then
    tbl.map (fun x => if key x = key r then r else x)
  else tbl ++ [r]

/-- `executemany` of the upsert statement over a batch of rows. -/
def upsertAll (key : α → κ) (tbl : List α) (rs : List α) : List α :=
  rs.foldl (upsertRow key) tbl

/-- The last row of `rs` whose key is `k`, if any (the value the upsert
leaves in the table for that key). -/
def lastWith (key : α → κ) (k : κ) : List α → Option α
  | [] => none
  | r :: rs =>
    match lastWith key k rs with
    | some x => some x
    | none => if key r = k then some r else none

theorem lastWith_eq_none {key : α → κ} {k : κ} {rs : List α} :
    lastWith key k rs = none ↔ ∀ r ∈ rs, key r ≠ k := by
  induction rs with
  | nil => simp [lastWith]
  | cons r rs ih =>
    simp only [lastWith]
    cases h : lastWith key k rs with
    | some x =>
      simp only [List.mem_cons]
      constructor
      · intro hc
        exact absurd hc (by simp)
      · intro hall
        rw [← h]
        exact absurd (ih.mpr fun q hq => hall q (Or.inr hq)) (by rw [h]; simp)
    | none =>
      have hall := ih.mp h
      constructor
      · intro hc
        intro q hq
        rcases List.mem_cons.mp hq with rfl | hq'
        · intro hk
          rw [if_pos hk] at hc
          exact Option.noConfusion hc
        · exact hall q hq'
      · intro hq
        rw [if_neg (hq r (List.mem_cons_self r rs))]

theorem key_mem_upsertRow_self (key : α → κ) (tbl : List α) (r : α) :
    key r ∈ (upsertRow key tbl r).map key := by
  unfold upsertRow
  split
  · rename_i h
    obtain ⟨x, hx, hk⟩ := List.any_eq_true.mp h
    have hk' : key x = key r := of_decide_eq_true hk
    have hr : r ∈ tbl.map (fun y => if key y = key r then r else y) :=
      List.mem_map.mpr ⟨x, hx, by rw [if_pos hk']⟩
    exact List.mem_map.mpr ⟨r, hr, rfl⟩
  · simp

theorem key_mem_upsertRow_mono (key : α → κ) (tbl : List α) (r : α) {k : κ}
    (h : k ∈ tbl.map key) : k ∈ (upsertRow key tbl r).map key := by
  obtain ⟨x, hx, rfl⟩ := List.mem_map.mp h
  unfold upsertRow
  split
  · by_cases hk : key x = key r
    · refine List.mem_map.mpr ⟨r, List.mem_map.mpr ⟨x, hx, ?_⟩, hk.symm⟩
      rw [if_pos hk]
    · refine List.mem_map.mpr ⟨x, List.mem_map.mpr ⟨x, hx, ?_⟩, rfl⟩
      rw [if_neg hk]
  · exact List.mem_map.mpr ⟨x, List.mem_append_left _ hx, rfl⟩

theorem key_mem_upsertAll_mono (key : α → κ) (rs : List α) (tbl : List α) {k : κ}
    (h : k ∈ tbl.map key) : k ∈ (upsertAll key tbl rs).map key := by
  induction rs generalizing tbl with
  | nil => exact h
  | cons r rs ih => exact ih _ (key_mem_upsertRow_mono key tbl r h)

theorem keys_mem_upsertAll (key : α → κ) (rs : List α) (tbl : List α) :
    ∀ r ∈ rs, key r ∈ (upsertAll key tbl rs).map key := by
  induction rs generalizing tbl with
  | nil => intro r hr; exact absurd hr (List.not_mem_nil r)
  | cons q rs ih =>
    intro r hr
    rcases List.mem_cons.mp hr with rfl | hr'
    · exact key_mem_upsertAll_mono key rs _ (key_mem_upsertRow_self key tbl r)
    · exact ih _ r hr'

theorem keys_map_subst (key : α → κ) (tbl : List α) (r : α) :
    (tbl.map (fun x => if key x = key r then r else x)).map key = tbl.map key := by
  rw [List.map_map]
  apply List.map_congr_left
  intro x _
  by_cases hk : key x = key r
  · simp [hk]
  · simp [hk]

theorem upsertRow_of_key_mem (key : α → κ) (tbl : List α) (r : α)
    (h : key r ∈ tbl.map key) :
    upsertRow key tbl r = tbl.map (fun x => if key x = key r then r else x) := by
  unfold upsertRow
  rw [if_pos]
  obtain ⟨x, hx, hk⟩ := List.mem_map.mp h
  exact List.any_eq_true.mpr ⟨x, hx, decide_eq_true hk⟩

theorem upsertAll_eq_map_of_keys_mem (key : α → κ) (rs : List α) :
    ∀ tbl : List α, (∀ r ∈ rs, key r ∈ tbl.map key) →
      upsertAll key tbl rs
        = tbl.map (fun x => (lastWith key (key x) rs).getD x) := by
  induction rs with
  | nil =>
    intro tbl _
    simp [upsertAll, lastWith]
  | cons r rs ih =>
    intro tbl hmem
    have hr : key r ∈ tbl.map key := hmem r (List.mem_cons_self r rs)
    have step : upsertAll key tbl (r :: rs)
        = upsertAll key (tbl.map (fun x => if key x = key r then r else x)) rs := by
      unfold upsertAll
      rw [List.foldl_cons, upsertRow_of_key_mem key tbl r hr]
    rw [step, ih _ (fun q hq => by
      rw [keys_map_subst]
      exact hmem q (List.mem_cons_of_mem r hq))]
    rw [List.map_map]
    apply List.map_congr_left
    intro x _
    simp only [Function.comp_apply]
    by_cases hk : key x = key r
    · rw [if_pos hk]
      have hkr : key r = key x := hk.symm
      simp only [lastWith, hkr]
      cases hlast : lastWith key (key x) rs with
      | some z => simp
      | none => simp
    · rw [if_neg hk]
      simp only [lastWith]
      cases hlast : lastWith key (key x) rs with
      | some z => simp
      | none =>
        rw [if_neg (fun hc => hk hc.symm)]

theorem mem_of_mem_upsertRow_of_ne (key : α → κ) {tbl : List α} {r x : α}
    (hx : x ∈ upsertRow key tbl r) (hne : key r ≠ key x) : x ∈ tbl := by
  unfold upsertRow at hx
  split at hx
  · obtain ⟨y, hy, hyx⟩ := List.mem_map.mp hx
    by_cases hk : key y = key r
    · rw [if_pos hk] at hyx
      exact absurd (hyx ▸ rfl : key r = key x) hne
    · rw [if_neg hk] at hyx
      exact hyx ▸ hy
  · rcases List.mem_append.mp hx with h | h
    · exact h
    · rcases List.mem_singleton.mp h with rfl
      exact absurd rfl hne

theorem mem_of_mem_upsertAll_of_fresh (key : α → κ) {rs : List α} :
    ∀ {tbl x}, x ∈ upsertAll key tbl rs → (∀ r ∈ rs, key r ≠ key x) → x ∈ tbl := by
  induction rs with
  | nil => intro tbl x hx _; exact hx
  | cons r rs ih =>
    intro tbl x hx hfresh
    have h1 : x ∈ upsertRow key tbl r :=
      ih hx (fun q hq => hfresh q (List.mem_cons_of_mem r hq))
    exact mem_of_mem_upsertRow_of_ne key h1 (hfresh r (List.mem_cons_self r rs))

theorem eq_of_mem_upsertRow_of_key_eq (key : α → κ) {tbl : List α} {r x : α}
    (hx : x ∈ upsertRow key tbl r) (hk : key x = key r) : x = r := by
  unfold upsertRow at hx
  split at hx
  · obtain ⟨y, hy, hyx⟩ := List.mem_map.mp hx
    by_cases hky : key y = key r
    · rw [if_pos hky] at hyx
      exact hyx.symm
    · rw [if_neg hky] at hyx
      exact absurd (hyx ▸ hk) hky
  · rename_i hnone
    rcases List.mem_append.mp hx with h | h
    · exact absurd (List.any_eq_true.mpr ⟨x, h, decide_eq_true hk⟩) hnone
    · exact List.mem_singleton.mp h

theorem eq_lastWith_of_mem_upsertAll (key : α → κ) {rs : List α} :
    ∀ {tbl x r'}, x ∈ upsertAll key tbl rs →
      lastWith key (key x) rs = some r' → x = r' := by
  induction rs with
  | nil => intro tbl x r' _ hlast; exact absurd hlast (by simp [lastWith])
  | cons r rs ih =>
    intro tbl x r' hx hlast
    simp only [lastWith] at hlast
    cases h : lastWith key (key x) rs with
    | some z =>
      rw [h] at hlast
      cases hlast
      exact ih hx h
    | none =>
      rw [h] at hlast
      by_cases hk : key r = key x
      · rw [if_pos hk] at hlast
        cases hlast
        have hfresh : ∀ q ∈ rs, key q ≠ key x := lastWith_eq_none.mp h
        have h1 : x ∈ upsertRow key tbl r :=
          mem_of_mem_upsertAll_of_fresh key hx hfresh
        exact eq_of_mem_upsertRow_of_key_eq key h1 hk.symm
      · rw [if_neg hk] at hlast
        exact absurd hlast (by simp)

/-- Re-running the same upsert batch on the table it produced changes
nothing: `executemany` of `INSERT ... ON DUPLICATE KEY UPDATE` is
idempotent. -/
theorem upsertAll_idem (key : α → κ) (tbl rs : List α) :
    upsertAll key (upsertAll key tbl rs) rs = upsertAll key tbl rs := by
  have hkeys : ∀ r ∈ rs, key r ∈ (upsertAll key tbl rs).map key :=
    keys_mem_upsertAll key rs tbl
  rw [upsertAll_eq_map_of_keys_mem key rs _ hkeys]
  have : ∀ x ∈ upsertAll key tbl rs,
      (lastWith key (key x) rs).getD x = id x := by
    intro x hx
    cases h : lastWith key (key x) rs with
    | none => rfl
    | some r' =>
      simp only [Option.getD_some, id_eq]
      exact (eq_lastWith_of_mem_upsertAll key hx h).symm
  rw [List.map_congr_left this, List.map_id]

end Upsert

/-- One row of the `daily_data` table (models/daily_data.py DEFAULT_FIELDS
plus the status fields of `_get_daily_data_table_queries` with
`include_status_fields=True`). -/
structure DailyRow where
  ts_code : String
  trade_date : String
  «open» : ℚ
  high : ℚ
  low : ℚ
  close : ℚ
  pre_close : ℚ
  change : ℚ
  pct_chg : ℚ
  vol : ℚ
  amount : ℚ
  data_status : String
  status_reason : String
  deriving DecidableEq, Repr

/-- The UNIQUE KEY `unique_stock_date (ts_code, trade_date)` of the
daily-data tables. -/
def dailyKey (r : DailyRow) : String × String := (r.ts_code, r.trade_date)

/-- `save_dataframe_to_table` / `_save_period_data_to_mysql` reduced to
its table effect: `executemany` of the ON-DUPLICATE-KEY-UPDATE insert
built by `_get_daily_data_table_queries`. -/
def save_daily_rows (tbl rows : List DailyRow) : List DailyRow :=
  upsertAll dailyKey tbl rows

/-- One row of the `momentum_selected_stocks` table, in the column order
of the insert statement of `_save_selected_stocks_to_db`. -/
structure MomentumSelRow where
  ts_code : String
  name : String
  momentum : ℚ
  start_date : String
  end_date : String
  start_close : ℚ
  end_close : ℚ
  data_points : ℕ
  strategy : String
  deriving DecidableEq, Repr

/-- `_save_selected_stocks_to_db` reduced to its table effect: the table
has only an AUTO_INCREMENT primary key and the insert statement has no
ON DUPLICATE KEY UPDATE clause, so `executemany` appends every row. -/
def save_selected_stocks_rows (tbl rows : List MomentumSelRow) : List MomentumSelRow :=
  tbl ++ rows

/-- A concrete momentum selection result row. -/
def momentumRow0 : MomentumSelRow :=
  ⟨"000001.SZ", "平安银行", 5, "20250901", "20250930", 10, 21/2, 20, "momentum_20d"⟩

/-- C1 (counterexample): not every stored table is keyed and upserted
idempotently.  `momentum_selected_stocks` is written by a plain INSERT
into a table whose only key is the AUTO_INCREMENT id, so saving the same
selection twice appends a duplicate row instead of leaving the table
unchanged. -/
theorem save_selected_stocks_not_idempotent :
    save_selected_stocks_rows
        (save_selected_stocks_rows ([] : List MomentumSelRow) [momentumRow0])
        [momentumRow0]
      ≠ save_selected_stocks_rows [] [momentumRow0] := by
  intro h
  have h' := congrArg List.length h
  simp [save_selected_stocks_rows] at h'

/-- C1 (amended): every stored entity table written through the
`INSERT ... ON DUPLICATE KEY UPDATE` builders (daily/weekly/monthly
bars, index and ETF levels, fundamentals, companies, RSI results) is
uniquely keyed by (code, date) or (code); saving a row whose key already
exists updates the row in place without growing the table, and running
the same save twice equals running it once.  The one exception is
`momentum_selected_stocks` (see the counterexample), whose save is a
plain append. -/
theorem save_daily_rows_upsert_idempotent (tbl rows : List DailyRow) (r : DailyRow) :
    save_daily_rows (save_daily_rows tbl rows) rows = save_daily_rows tbl rows ∧
    ((∃ x ∈ tbl, dailyKey x = dailyKey r) →
      (upsertRow dailyKey tbl r).length = tbl.length) := by
  constructor
  · exact upsertAll_idem dailyKey tbl rows
  · rintro ⟨x, hx, hk⟩
    unfold upsertRow
    rw [if_pos (List.any_eq_true.mpr ⟨x, hx, decide_eq_true hk⟩)]
    exact List.length_map tbl _

/-- A stored daily row and an update for the same (code, date) key. -/
def dailyRow0 : DailyRow :=
  ⟨"000001.SZ", "20250926", 10, 11, 9, 21/2, 10, 1/2, 5, 1000, 10500, "正常", ""⟩

/-- The same key as `dailyRow0` with refreshed values. -/
def dailyRow1 : DailyRow :=
  ⟨"000001.SZ", "20250926", 10, 12, 9, 11, 10, 1, 10, 1200, 13200, "正常", ""⟩

/-- Witness for C1 (amended) at a concrete table: re-saving `[dailyRow1]`
is a no-op and upserting the duplicate key does not grow the table. -/
theorem save_daily_rows_upsert_idempotent_witness :
    (save_daily_rows (save_daily_rows [dailyRow0] [dailyRow1]) [dailyRow1]
        = save_daily_rows [dailyRow0] [dailyRow1]) ∧
    ((∃ x ∈ [dailyRow0], dailyKey x = dailyKey dailyRow1) ∧
      (upsertRow dailyKey [dailyRow0] dailyRow1).length = [dailyRow0].length) := by
  have hex : ∃ x ∈ [dailyRow0], dailyKey x = dailyKey dailyRow1 :=
    ⟨dailyRow0, List.mem_singleton.mpr rfl, by simp [dailyKey, dailyRow0, dailyRow1]⟩
  exact ⟨(save_daily_rows_upsert_idempotent [dailyRow0] [dailyRow1] dailyRow1).1,
    hex, (save_daily_rows_upsert_idempotent [dailyRow0] [dailyRow1] dailyRow1).2 hex⟩

/- ---------------------------------------------------------------------
MomentumStrategy (strategy/momentum_strategy.py).

`calculate_momentum` collects one result row per qualifying stock
(enough data points, positive start price, volatility and trend checks)
and finishes with
    momentum_df = momentum_df.sort_values('momentum', ascending=False)
(lines 205-211); `filter_stocks` (lines 213-226) then takes
    top_n = max(1, int(len(momentum_df) * 0.1))
rows from the head.  For every n, `int(n * 0.1)` in float arithmetic
equals `n / 10` in integers (n * 0.1 can never cross an integer
boundary upward), so the embedding uses `n / 10`.  The computation of
the per-stock rows involves a square root (std); the claims quantify
over the resulting qualifying rows, so the embedding takes that row
list as input.
--------------------------------------------------------------------- -/

namespace MomentumStrategy

/-- One row of `momentum_results`. -/
structure MomentumRow where
  ts_code : String
  momentum : ℚ
  deriving DecidableEq, Repr

/-- `momentum_df.sort_values('momentum', ascending=False)`: the final
step of `calculate_momentum`, sorting the qualifying rows by momentum
descending. -/
def calculate_momentum_sorted (results : List MomentumRow) : List MomentumRow :=
  results.mergeSort (fun a b => decide (b.momentum ≤ a.momentum))

/-- `MomentumStrategy.filter_stocks`. -/
def filter_stocks (momentum_df : List MomentumRow) : List MomentumRow :=
  if momentum_df = [] then []
  else momentum_df.take (max 1 (momentum_df.length / 10))

theorem calculate_momentum_sorted_le (results : List MomentumRow) :
    (calculate_momentum_sorted results).Pairwise
      (fun a b => b.momentum ≤ a.momentum) := by
  have h := @List.sorted_mergeSort MomentumRow
    (fun a b => decide (b.momentum ≤ a.momentum))
    (fun a b c => by
      simp only [decide_eq_true_eq]
      exact fun h1 h2 => le_trans h2 h1)
    (fun a b => by
      simp only [Bool.or_eq_true, decide_eq_true_eq]
      exact le_total b.momentum a.momentum) results
  exact List.Pairwise.imp (fun hab => by simpa using hab) h

theorem calculate_momentum_sorted_length (results : List MomentumRow) :
    (calculate_momentum_sorted results).length = results.length :=
  (List.mergeSort_perm results _).length_eq

/-- C4: for `n ≥ 1` qualifying stocks, the momentum frame is sorted by
momentum in descending order, and `filter_stocks` returns exactly
`max 1 (n / 10)` rows (`max(1, int(0.1 * n))`), each of momentum at
least that of every row it leaves out, still in descending momentum
order. -/
theorem filter_stocks_top_decile (results : List MomentumRow)
    (h : 1 ≤ results.length) :
    (calculate_momentum_sorted results).Pairwise
        (fun a b => b.momentum ≤ a.momentum) ∧
    (filter_stocks (calculate_momentum_sorted results)).length
        = max 1 (results.length / 10) ∧
    (∀ a ∈ filter_stocks (calculate_momentum_sorted results),
      ∀ b ∈ (calculate_momentum_sorted results).drop
          (max 1 (results.length / 10)),
        b.momentum ≤ a.momentum) ∧
    (filter_stocks (calculate_momentum_sorted results)).Pairwise
        (fun a b => b.momentum ≤ a.momentum) := by
  set df := calculate_momentum_sorted results with hdf
  have hlen : df.length = results.length := calculate_momentum_sorted_length results
  have hsorted := calculate_momentum_sorted_le results
  have hne : df ≠ [] := by
    intro hc
    rw [hc] at hlen
    simp at hlen
    omega
  have htop : max 1 (results.length / 10) ≤ results.length := by
    have : results.length / 10 ≤ results.length := Nat.div_le_self _ _
    omega
  have hfs : filter_stocks df = df.take (max 1 (df.length / 10)) := by
    unfold filter_stocks
    rw [if_neg hne]
  refine ⟨hsorted, ?_, ?_, ?_⟩
  · rw [hfs, List.length_take, hlen]
    omega
  · intro a ha b hb
    rw [hfs, hlen] at ha
    have hpw : List.Pairwise (fun a b => b.momentum ≤ a.momentum)
        (df.take (max 1 (results.length / 10))
          ++ df.drop (max 1 (results.length / 10))) := by
      rw [List.take_append_drop]
      exact hsorted
    rw [List.pairwise_append] at hpw
    exact hpw.2.2 a ha b hb
  · rw [hfs]
    exact hsorted.sublist (List.take_sublist _ _)

/-- Concrete qualifying rows for the C4 witness. -/
def momentumRows0 : List MomentumRow :=
  [⟨"000001.SZ", 3⟩, ⟨"000002.SZ", 7⟩]

/-- Witness for C4 on two qualifying stocks: the sorted frame is
`[7, 3]` and `filter_stocks` keeps exactly `max 1 (2 / 10) = 1` row. -/
theorem filter_stocks_top_decile_witness :
    1 ≤ momentumRows0.length ∧
    ((calculate_momentum_sorted momentumRows0).Pairwise
        (fun a b => b.momentum ≤ a.momentum) ∧
    (filter_stocks (calculate_momentum_sorted momentumRows0)).length
        = max 1 (momentumRows0.length / 10) ∧
    (∀ a ∈ filter_stocks (calculate_momentum_sorted momentumRows0),
      ∀ b ∈ (calculate_momentum_sorted momentumRows0).drop
          (max 1 (momentumRows0.length / 10)),
        b.momentum ≤ a.momentum) ∧
    (filter_stocks (calculate_momentum_sorted momentumRows0)).Pairwise
        (fun a b => b.momentum ≤ a.momentum)) :=
  ⟨by simp [momentumRows0],
    filter_stocks_top_decile momentumRows0 (by simp [momentumRows0])⟩

end MomentumStrategy

/- ---------------------------------------------------------------------
Numeric-column preprocessing (C3).

DailyDataManager._preprocess_daily_data (daily_data_manager.py 71-91)
and DailyBasicManager._preprocess_daily_basic_data
(stock/daily_basic_manager.py 88-115): for every column of the
respective numeric-field list that is present in the frame,
    df[f] = pd.to_numeric(df[f], errors='coerce')
    df[f] = df[f].fillna(0.0)
    df[f] = df[f].replace([inf, -inf], 0.0)
A cell after `to_numeric` is NaN, +inf, -inf or a finite value, which
`PCell` models; the date-column conversion does not affect the claim.
--------------------------------------------------------------------- -/

/-- A numeric pandas cell after `pd.to_numeric(..., errors='coerce')`. -/
inductive PCell
  | nan
  | pinf
  | ninf
  | val (q : ℚ)
  deriving DecidableEq, Repr

/-- `Series.fillna(0.0)` on one cell. -/
def fillna0 : PCell → PCell
  | .nan => .val 0
  | c => c

/-- `Series.replace([inf, -inf], 0.0)` on one cell. -/
def replaceInf0 : PCell → PCell
  | .pinf => .val 0
  | .ninf => .val 0
  | c => c

/-- Is the cell a finite value? -/
def PCell.finite : PCell → Bool
  | .val _ => true
  | _ => false

/-- A data frame: named columns of numeric cells. -/
abbrev Frame : Type := List (String × List PCell)

/-- The numeric-field list of `_preprocess_daily_data`. -/
def dailyNumericFields : List String :=
  ["open", "high", "low", "close", "vol", "amount"]

/-- The numeric-field list of `_preprocess_daily_basic_data`. -/
def dailyBasicNumericFields : List String :=
  ["close", "turnover_rate", "turnover_rate_f", "volume_ratio",
   "pe", "pe_ttm", "pb", "ps", "ps_ttm", "dv_ratio", "dv_ttm",
   "total_share", "float_share", "free_share", "total_mv", "circ_mv"]

/-- The `for field in ...: if field in df.columns:` loop shared by both
preprocessors: fill NaN with 0.0, then replace ±inf with 0.0, on every
listed column present in the frame. -/
def preprocessNumericColumns (numericFields : List String) (df : Frame) : Frame :=
  df.map fun col =>
    if col.1 ∈ numericFields then
      (col.1, (col.2.map fillna0).map replaceInf0)
    else col

/-- `DailyDataManager._preprocess_daily_data` restricted to its numeric
clamping (the trade_date conversion is not modelled). -/
def _preprocess_daily_data (df : Frame) : Frame :=
  preprocessNumericColumns dailyNumericFields df

/-- `DailyBasicManager._preprocess_daily_basic_data` restricted to its
numeric clamping. -/
def _preprocess_daily_basic_data (df : Frame) : Frame :=
  preprocessNumericColumns dailyBasicNumericFields df

theorem preprocessNumericColumns_finite (numericFields : List String)
    (df : Frame) (name : String) (col : List PCell)
    (hmem : (name, col) ∈ preprocessNumericColumns numericFields df)
    (hname : name ∈ numericFields) :
    ∀ c ∈ col, c.finite = true := by
  unfold preprocessNumericColumns at hmem
  obtain ⟨orig, _, heq⟩ := List.mem_map.mp hmem
  by_cases hin : orig.1 ∈ numericFields
  · rw [if_pos hin] at heq
    have hcol : col = (orig.2.map fillna0).map replaceInf0 := by
      have h2 := congrArg Prod.snd heq
      simpa using h2.symm
    intro c hc
    rw [hcol] at hc
    obtain ⟨c1, hc1, rfl⟩ := List.mem_map.mp hc
    obtain ⟨c0, _, rfl⟩ := List.mem_map.mp hc1
    cases c0 <;> simp [fillna0, replaceInf0, PCell.finite]
  · rw [if_neg hin] at heq
    exact absurd (heq ▸ hname : orig.1 ∈ numericFields) hin

/-- C3: after `_preprocess_daily_data` or `_preprocess_daily_basic_data`,
every cell of every present column named in the respective numeric-field
list is finite, because `fillna(0.0)` and `replace([inf,-inf], 0.0)`
send NaN, +inf and -inf to 0.0 and leave finite values unchanged. -/
theorem preprocess_clamps_to_finite
    (dfd dfb : Frame) (nd : String) (cd : List PCell) (nb : String) (cb : List PCell)
    (hd : (nd, cd) ∈ _preprocess_daily_data dfd)
    (hdn : nd ∈ dailyNumericFields)
    (hb : (nb, cb) ∈ _preprocess_daily_basic_data dfb)
    (hbn : nb ∈ dailyBasicNumericFields) :
    (∀ c ∈ cd, c.finite = true) ∧
    (∀ c ∈ cb, c.finite = true) ∧
    (∀ q : ℚ, replaceInf0 (fillna0 (PCell.val q)) = PCell.val q) ∧
    replaceInf0 (fillna0 PCell.nan) = PCell.val 0 ∧
    replaceInf0 (fillna0 PCell.pinf) = PCell.val 0 ∧
    replaceInf0 (fillna0 PCell.ninf) = PCell.val 0 := by
  refine ⟨preprocessNumericColumns_finite _ dfd nd cd hd hdn,
    preprocessNumericColumns_finite _ dfb nb cb hb hbn, ?_, rfl, rfl, rfl⟩
  intro q
  rfl

/-- A concrete daily frame for the C3 witness. -/
def frame0 : Frame :=
  [("ts_code", [PCell.val 1]),
   ("open", [PCell.nan, PCell.pinf, PCell.val 3]),
   ("vol", [PCell.ninf])]

/-- A concrete fundamentals frame for the C3 witness. -/
def frameB0 : Frame :=
  [("pe", [PCell.nan, PCell.val (7/2)])]

/-- Witness for C3 on concrete frames containing NaN and ±inf cells. -/
theorem preprocess_clamps_to_finite_witness :
    (("open", [PCell.val 0, PCell.val 0, PCell.val 3])
        ∈ _preprocess_daily_data frame0 ∧
      "open" ∈ dailyNumericFields ∧
      ("pe", [PCell.val 0, PCell.val (7/2)])
        ∈ _preprocess_daily_basic_data frameB0 ∧
      "pe" ∈ dailyBasicNumericFields) ∧
    ((∀ c ∈ [PCell.val 0, PCell.val 0, PCell.val 3], c.finite = true) ∧
      (∀ c ∈ [PCell.val 0, PCell.val (7/2)], c.finite = true) ∧
      (∀ q : ℚ, replaceInf0 (fillna0 (PCell.val q)) = PCell.val q) ∧
      replaceInf0 (fillna0 PCell.nan) = PCell.val 0 ∧
      replaceInf0 (fillna0 PCell.pinf) = PCell.val 0 ∧
      replaceInf0 (fillna0 PCell.ninf) = PCell.val 0) := by
  have h1 : ("open", [PCell.val 0, PCell.val 0, PCell.val 3])
      ∈ _preprocess_daily_data frame0 := by
    simp [_preprocess_daily_data, preprocessNumericColumns, frame0,
      dailyNumericFields, fillna0, replaceInf0]
  have h2 : ("pe", [PCell.val 0, PCell.val (7/2)])
      ∈ _preprocess_daily_basic_data frameB0 := by
    simp [_preprocess_daily_basic_data, preprocessNumericColumns, frameB0,
      dailyBasicNumericFields, fillna0, replaceInf0]
  have h3 : "open" ∈ dailyNumericFields := by simp [dailyNumericFields]
  have h4 : "pe" ∈ dailyBasicNumericFields := by simp [dailyBasicNumericFields]
  exact ⟨⟨h1, h3, h2, h4⟩,
    preprocess_clamps_to_finite frame0 frameB0 "open" _ "pe" _ h1 h3 h2 h4⟩


/- ---------------------------------------------------------------------
RSIStrategy.save_results batching (C5), rsi_strategy.py lines 238-259:

    batch_size = 1000
    for i in range(0, len(data_tuples), batch_size):
        batch = data_tuples[i:i + batch_size]
        success = self.mysql_manager.execute_many(insert_query, batch)
        if success: success_count += len(batch)
        else: print(...)  -- keep looping, no retry, no abort
    return success_count == len(data_tuples)

preceded by `if not results: return False` and an early `return False`
when the CREATE TABLE fails.  The per-batch outcome of `execute_many`
is abstracted as an oracle `ok : List T -> Bool`.
--------------------------------------------------------------------- -/

section Batching

variable {T : Type}

/-- The consecutive slices `l[i:i+bs]` for `i = 0, bs, 2*bs, ...`. -/
def chunks (bs : ℕ) (l : List T) : List (List T) :=
  match l with
  | [] => []
  | x :: xs =>
    if h : bs = 0 then []
    else (x :: xs).take bs :: chunks bs ((x :: xs).drop bs)
termination_by l.length
decreasing_by
  simp only [List.length_drop, List.length_cons]
  omega

/-- `success_count` at the end of the loop: the lengths of the batches
whose `execute_many` call succeeded. -/
def success_count (ok : List T → Bool) (tuples : List T) : ℕ :=
  ((chunks 1000 tuples).map (fun b => if ok b then b.length else 0)).sum

/-- `RSIStrategy.save_results` reduced to its control flow: `False` on
empty results or CREATE TABLE failure, otherwise loop over the batches
and compare `success_count` with the total. -/
def save_results (createOk : Bool) (ok : List T → Bool) (tuples : List T) : Bool :=
  if tuples.isEmpty then false
  else if createOk = false then false
  else decide (success_count ok tuples = tuples.length)

theorem chunks_flatten (bs : ℕ) (hbs : bs ≠ 0) (l : List T) :
    (chunks bs l).flatten = l := by
  have H : ∀ n, ∀ l : List T, l.length = n → (chunks bs l).flatten = l := by
    intro n
    induction n using Nat.strong_induction_on with
    | _ n ih =>
      intro l hl
      match l with
      | [] => simp [chunks]
      | x :: xs =>
        rw [chunks, dif_neg hbs, List.flatten_cons]
        have hlt : ((x :: xs).drop bs).length < n := by
          rw [List.length_drop]
          simp only [List.length_cons] at hl ⊢
          omega
        rw [ih _ (hl ▸ hlt) _ rfl]
        exact List.take_append_drop bs (x :: xs)
  exact H l.length l rfl

theorem chunks_mem_length (bs : ℕ) (l : List T) (b : List T)
    (hb : b ∈ chunks bs l) : 0 < b.length ∧ b.length ≤ bs := by
  have H : ∀ n, ∀ l : List T, l.length = n →
      ∀ b, b ∈ chunks bs l → 0 < b.length ∧ b.length ≤ bs := by
    intro n
    induction n using Nat.strong_induction_on with
    | _ n ih =>
      intro l hl b hb
      match l with
      | [] => rw [chunks] at hb; exact absurd hb (List.not_mem_nil b)
      | x :: xs =>
        rw [chunks] at hb
        by_cases hbs : bs = 0
        · rw [dif_pos hbs] at hb
          exact absurd hb (List.not_mem_nil b)
        · rw [dif_neg hbs] at hb
          rcases List.mem_cons.mp hb with rfl | hb'
          · rw [List.length_take]
            simp only [List.length_cons]
            constructor
            · have : 0 < bs := Nat.pos_of_ne_zero hbs
              omega
            · omega
          · have hlt : ((x :: xs).drop bs).length < n := by
              rw [List.length_drop]
              simp only [List.length_cons] at hl ⊢
              have : 0 < bs := Nat.pos_of_ne_zero hbs
              omega
            exact ih _ (hl ▸ hlt) _ rfl b hb'
  exact H l.length l rfl b hb

theorem sum_chunk_lengths (bs : ℕ) (hbs : bs ≠ 0) (l : List T) :
    ((chunks bs l).map List.length).sum = l.length := by
  have h := congrArg List.length (chunks_flatten bs hbs l)
  rwa [List.length_flatten] at h

theorem sum_if_ok_eq_iff (ok : List T → Bool) (cs : List (List T))
    (hne : ∀ b ∈ cs, 0 < b.length) :
    (cs.map (fun b => if ok b then b.length else 0)).sum
        = (cs.map List.length).sum
      ↔ ∀ b ∈ cs, ok b = true := by
  induction cs with
  | nil => simp
  | cons c cs ih =>
    simp only [List.map_cons, List.sum_cons, List.mem_cons]
    have hc : 0 < c.length := hne c (List.mem_cons_self c cs)
    have hle1 : (if ok c then c.length else 0) ≤ c.length := by
      split
      · exact le_refl _
      · exact Nat.zero_le _
    have hle2 : (cs.map (fun b => if ok b then b.length else 0)).sum
        ≤ (cs.map List.length).sum := by
      apply List.sum_le_sum
      intro b _
      split
      · exact le_refl _
      · exact Nat.zero_le _
    have ih' := ih (fun b hb => hne b (List.mem_cons_of_mem c hb))
    constructor
    · intro heq
      have h1 : (if ok c then c.length else 0) = c.length := by omega
      have h2 : (cs.map (fun b => if ok b then b.length else 0)).sum
          = (cs.map List.length).sum := by omega
      intro b hb
      rcases hb with rfl | hb'
      · by_contra hnot
        rw [if_neg (by simpa using hnot)] at h1
        omega
      · exact ih'.mp h2 b hb'
    · intro hall
      rw [if_pos (hall c (Or.inl rfl)),
        ih'.mpr (fun b hb => hall b (Or.inr hb))]

/-- C5: with a nonempty record list and a successful CREATE TABLE,
`save_results` splits the tuples into consecutive batches of at most
1000 (whose concatenation is the original list, in order), keeps
looping past failed batches, and returns `true` exactly when every
batch insert succeeded (`success_count` equals the record count). -/
theorem save_results_batches (ok : List T → Bool) (tuples : List T)
    (h : tuples ≠ []) :
    (chunks 1000 tuples).flatten = tuples ∧
    (∀ b ∈ chunks 1000 tuples, 0 < b.length ∧ b.length ≤ 1000) ∧
    (save_results true ok tuples = true
      ↔ ∀ b ∈ chunks 1000 tuples, ok b = true) := by
  refine ⟨chunks_flatten 1000 (by norm_num) tuples,
    fun b hb => chunks_mem_length 1000 tuples b hb, ?_⟩
  unfold save_results
  rw [if_neg (by simpa [List.isEmpty_iff] using h)]
  simp only [Bool.true_eq_false, if_false, decide_eq_true_eq]
  rw [show tuples.length = ((chunks 1000 tuples).map List.length).sum from
    (sum_chunk_lengths 1000 (by norm_num) tuples).symm]
  exact sum_if_ok_eq_iff ok (chunks 1000 tuples)
    (fun b hb => (chunks_mem_length 1000 tuples b hb).1)

/-- Witness for C5 on a concrete two-element record list with an
always-succeeding insert oracle. -/
theorem save_results_batches_witness :
    ([0, 1] : List ℕ) ≠ [] ∧
    ((chunks 1000 [0, 1]).flatten = [0, 1] ∧
      (∀ b ∈ chunks 1000 [0, 1], 0 < b.length ∧ b.length ≤ 1000) ∧
      (save_results true (fun _ => true) [0, 1] = true
        ↔ ∀ b ∈ chunks 1000 ([0, 1] : List ℕ), (fun _ => true) b = true)) :=
  ⟨by simp, save_results_batches (fun _ => true) [0, 1] (by simp)⟩

end Batching

/- ---------------------------------------------------------------------
DailyDataManager.fetch_daily_data_period (daily_data_manager.py 294-319)
and _create_empty_daily_data (525-559).

For every trading day of the calendar: a successful non-empty fetch
appends the fetched rows tagged `data_status='正常'`, `status_reason=''`;
a `None`/empty fetch appends one placeholder built by
`_create_empty_daily_data` tagged `'停盘'` with reason
`'当日停牌或无交易数据'`; an exception appends a placeholder tagged
`'错误'` with reason `'数据获取失败: ' + str(e)`.  The placeholder sets
every numeric price field to 0.0.  The per-day outcome of
`fetch_daily_data` is abstracted as `DayOutcome`.
--------------------------------------------------------------------- -/

namespace DailyDataManager

/-- What one loop iteration of `fetch_daily_data_period` observes for a
trading day: fetched rows, no data (fetch returned None/empty), or an
exception with its message. -/
inductive DayOutcome
  | fetched (rows : List DailyRow)
  | nodata
  | fetchFailed (msg : String)

/-- `_create_empty_daily_data` followed by the status assignment in the
loop body: a placeholder row with every numeric price field 0.0. -/
def _create_empty_daily_data (ts_code trade_date status reason : String) : DailyRow :=
  { ts_code := ts_code, trade_date := trade_date,
    «open» := 0, high := 0, low := 0, close := 0, pre_close := 0,
    change := 0, pct_chg := 0, vol := 0, amount := 0,
    data_status := status, status_reason := reason }

/-- One loop iteration of `fetch_daily_data_period` over the outcome for
trading day `d`. -/
def periodDayRows (ts_code : String) (d : String) : DayOutcome → List DailyRow
  | .fetched rows =>
      rows.map fun r => { r with data_status := "正常", status_reason := "" }
  | .nodata =>
      [_create_empty_daily_data ts_code d "停盘" "当日停牌或无交易数据"]
  | .fetchFailed msg =>
      [_create_empty_daily_data ts_code d "错误" ("数据获取失败: " ++ msg)]

/-- `fetch_daily_data_period`: concatenate the per-trading-day rows (the
final `pd.concat(all_data, ignore_index=True)`). -/
def fetch_daily_data_period (ts_code : String)
    (days : List (String × DayOutcome)) : List DailyRow :=
  days.flatMap fun day => periodDayRows ts_code day.1 day.2

/-- All nine numeric price fields of a row are zero. -/
def zeroPriced (r : DailyRow) : Prop :=
  r.«open» = 0 ∧ r.high = 0 ∧ r.low = 0 ∧ r.close = 0 ∧ r.pre_close = 0 ∧
  r.change = 0 ∧ r.pct_chg = 0 ∧ r.vol = 0 ∧ r.amount = 0

/-- C6: every row returned by `fetch_daily_data_period` carries one of
the three tags `'正常'`/`'停盘'`/`'错误'`; a row tagged `'停盘'` or
`'错误'` is a synthesized placeholder whose nine numeric price fields
are all 0.0 and whose `status_reason` states the cause (the fixed
suspension message, resp. the prefixed fetch-failure message). -/
theorem fetch_daily_data_period_status (ts_code : String)
    (days : List (String × DayOutcome)) (r : DailyRow)
    (hr : r ∈ fetch_daily_data_period ts_code days) :
    (r.data_status = "正常" ∨ r.data_status = "停盘" ∨ r.data_status = "错误") ∧
    (r.data_status = "停盘" →
      zeroPriced r ∧ r.status_reason = "当日停牌或无交易数据") ∧
    (r.data_status = "错误" →
      zeroPriced r ∧ ∃ msg, r.status_reason = "数据获取失败: " ++ msg) := by
  unfold fetch_daily_data_period at hr
  obtain ⟨day, _, hmem⟩ := List.mem_flatMap.mp hr
  rcases hout : day.2 with rows | _ | msg <;>
    rw [hout] at hmem <;> unfold periodDayRows at hmem
  · obtain ⟨r0, _, rfl⟩ := List.mem_map.mp hmem
    refine ⟨Or.inl rfl, ?_, ?_⟩
    · intro hc
      exact absurd hc (by simp)
    · intro hc
      exact absurd hc (by simp)
  · rcases List.mem_singleton.mp hmem with rfl
    refine ⟨Or.inr (Or.inl rfl), ?_, ?_⟩
    · intro _
      exact ⟨⟨rfl, rfl, rfl, rfl, rfl, rfl, rfl, rfl, rfl⟩, rfl⟩
    · intro hc
      exact absurd hc (by simp [_create_empty_daily_data])
  · rcases List.mem_singleton.mp hmem with rfl
    refine ⟨Or.inr (Or.inr rfl), ?_, ?_⟩
    · intro hc
      exact absurd hc (by simp [_create_empty_daily_data])
    · intro _
      exact ⟨⟨rfl, rfl, rfl, rfl, rfl, rfl, rfl, rfl, rfl⟩, ⟨msg, rfl⟩⟩

/-- A concrete period with one suspended day and one failed day. -/
def daysOutcome0 : List (String × DayOutcome) :=
  [("20250925", DayOutcome.nodata),
   ("20250926", DayOutcome.fetchFailed "timeout")]

/-- Witness for C6: the suspended-day placeholder row of a concrete
period run satisfies the status invariant. -/
theorem fetch_daily_data_period_status_witness :
    (_create_empty_daily_data "000001.SZ" "20250925" "停盘" "当日停牌或无交易数据"
        ∈ fetch_daily_data_period "000001.SZ" daysOutcome0) ∧
    (((_create_empty_daily_data "000001.SZ" "20250925" "停盘"
          "当日停牌或无交易数据").data_status = "正常" ∨
        (_create_empty_daily_data "000001.SZ" "20250925" "停盘"
          "当日停牌或无交易数据").data_status = "停盘" ∨
        (_create_empty_daily_data "000001.SZ" "20250925" "停盘"
          "当日停牌或无交易数据").data_status = "错误") ∧
      ((_create_empty_daily_data "000001.SZ" "20250925" "停盘"
          "当日停牌或无交易数据").data_status = "停盘" →
        zeroPriced (_create_empty_daily_data "000001.SZ" "20250925" "停盘"
          "当日停牌或无交易数据") ∧
        (_create_empty_daily_data "000001.SZ" "20250925" "停盘"
          "当日停牌或无交易数据").status_reason = "当日停牌或无交易数据") ∧
      ((_create_empty_daily_data "000001.SZ" "20250925" "停盘"
          "当日停牌或无交易数据").data_status = "错误" →
        zeroPriced (_create_empty_daily_data "000001.SZ" "20250925" "停盘"
          "当日停牌或无交易数据") ∧
        ∃ msg, (_create_empty_daily_data "000001.SZ" "20250925" "停盘"
          "当日停牌或无交易数据").status_reason = "数据获取失败: " ++ msg)) := by
  have hmem : _create_empty_daily_data "000001.SZ" "20250925" "停盘"
      "当日停牌或无交易数据" ∈ fetch_daily_data_period "000001.SZ" daysOutcome0 := by
    simp [fetch_daily_data_period, daysOutcome0, periodDayRows]
  exact ⟨hmem, fetch_daily_data_period_status "000001.SZ" daysOutcome0 _ hmem⟩

end DailyDataManager

/- ---------------------------------------------------------------------
MySQLManager (mysql_manager.py).

Every method wraps its database work in try/except and converts an
error into a return value: `execute_query` (64-82) and `query_data`
(182-260) return None, `execute_many` (84-100),
`create_table_if_not_exists` (102-115) and `save_dataframe_to_table`
(117-171) return False.  `query_data` returns `pd.DataFrame()` — an
empty frame, not None — when `execute_query` succeeds with zero rows.
The outcome of the underlying cursor call is abstracted as an
`Except DBErr` value.
--------------------------------------------------------------------- -/

namespace MySQLManager

/-- A `mysql.connector.Error` raised by the client library. -/
inductive DBErr
  | err (msg : String)
  deriving DecidableEq, Repr

section ErrorReturns

variable {R : Type}

/-- `execute_query`: fetched rows on success, `None` on error. -/
def execute_query (outcome : Except DBErr (List R)) : Option (List R) :=
  match outcome with
  | .ok rows => some rows
  | .error _ => none

/-- `execute_many` reduced to its return value: `True` on success,
`False` on error. -/
def execute_many_ok (outcome : Except DBErr Unit) : Bool :=
  match outcome with
  | .ok _ => true
  | .error _ => false

/-- `create_table_if_not_exists`: `True` on success, `False` on error. -/
def create_table_if_not_exists (outcome : Except DBErr Unit) : Bool :=
  match outcome with
  | .ok _ => true
  | .error _ => false

/-- `save_dataframe_to_table`: `False` on an empty frame, otherwise the
result of the batched `execute_many`. -/
def save_dataframe_to_table (df : List R) (outcome : Except DBErr Unit) : Bool :=
  if df.isEmpty then false
  else execute_many_ok outcome

/-- `query_data`: `None` when `execute_query` failed, an empty frame
when it returned no rows (`if not result: return pd.DataFrame()`), and
the populated frame otherwise. -/
def query_data (outcome : Except DBErr (List R)) : Option (List R) :=
  match execute_query outcome with
  | none => none
  | some result =>
    if result.isEmpty then some []
    else some result

/-- C8: every MySQLManager operation converts a database error into a
failure return value instead of raising — `None` for `execute_query`
and `query_data`, `False` for `execute_many`,
`create_table_if_not_exists` and `save_dataframe_to_table` — and
`query_data` returns an empty frame (not `None`) on a successful query
with zero rows. -/
theorem mysql_error_returns (e : DBErr) (df : List R) :
    execute_query (R := R) (.error e) = none ∧
    query_data (R := R) (.error e) = none ∧
    execute_many_ok (.error e) = false ∧
    create_table_if_not_exists (.error e) = false ∧
    save_dataframe_to_table df (.error e) = false ∧
    (query_data (R := R) (.ok []) = some [] ∧
      query_data (R := R) (.ok []) ≠ none) := by
  refine ⟨rfl, rfl, rfl, rfl, ?_, by simp [query_data, execute_query], by
    simp [query_data, execute_query]⟩
  unfold save_dataframe_to_table
  split
  · rfl
  · rfl

end ErrorReturns

/- ---------------------------------------------------------------------
The singleton (mysql_manager.py 12-40, C9).

    _instance = None ; _connection = None ; _config = None
    def __new__(cls, config=None):
        if cls._instance is None:
            cls._instance = super().__new__(cls)
            if config: cls._config = config; cls._mysql_config = ...
        return cls._instance
    def __init__(self, config=None):
        if config and self._config is None:
            self._config = config; self._mysql_config = ...

Class-level state is a record; object identity is a numeric id drawn
from a counter; a constructor call is `__new__` followed by `__init__`.
--------------------------------------------------------------------- -/

/-- A configuration object (only its identity matters here). -/
structure Config where
  mysqlConfig : String
  deriving DecidableEq, Repr

/-- The class-level attributes of `MySQLManager`. -/
structure ClsState where
  instId : Option ℕ
  config : Option Config
  conn : Option ℕ
  nextId : ℕ
  deriving DecidableEq, Repr

/-- The class state before any construction. -/
def initState : ClsState :=
  { instId := none, config := none, conn := none, nextId := 0 }

/-- `__new__`: create the instance only if none exists, capturing the
config only at that moment (and only if one was passed). -/
def mm_new (cfg : Option Config) (s : ClsState) : ClsState × ℕ :=
  match s.instId with
  | none =>
    ({ s with
        instId := some s.nextId
        nextId := s.nextId + 1
        config := if cfg.isSome then cfg else s.config },
      s.nextId)
  | some i => (s, i)

/-- `__init__`: `if config and self._config is None: self._config = config`. -/
def mm_init (cfg : Option Config) (s : ClsState) : ClsState :=
  if cfg.isSome && s.config.isNone then { s with config := cfg } else s

/-- One `MySQLManager(config)` call: `__new__` then `__init__`, returning
the object identity handed back to the caller. -/
def construct (cfg : Option Config) (s : ClsState) : ClsState × ℕ :=
  (mm_init cfg (mm_new cfg s).1, (mm_new cfg s).2)

/-- A sequence of `MySQLManager(...)` calls, collecting the returned
object identities. -/
def runAll : List (Option Config) → ClsState → ClsState × List ℕ
  | [], s => (s, [])
  | c :: cs, s =>
    ((runAll cs (construct c s).1).1,
      (construct c s).2 :: (runAll cs (construct c s).1).2)

theorem construct_of_some (cfg : Option Config) (s : ClsState) (i : ℕ)
    (h : s.instId = some i) :
    (construct cfg s).2 = i ∧
    (construct cfg s).1.instId = some i ∧
    (construct cfg s).1.conn = s.conn ∧
    (construct cfg s).1.config
      = (if s.config.isNone && cfg.isSome then cfg else s.config) := by
  have hm : (mm_new cfg s).1 = s := by simp [mm_new, h]
  refine ⟨?_, ?_, ?_, ?_⟩
  · show (mm_new cfg s).2 = i
    simp [mm_new, h]
  · show (mm_init cfg (mm_new cfg s).1).instId = some i
    rw [hm]
    unfold mm_init
    split <;> simpa using h
  · show (mm_init cfg (mm_new cfg s).1).conn = s.conn
    rw [hm]
    unfold mm_init
    split <;> rfl
  · show (mm_init cfg (mm_new cfg s).1).config = _
    rw [hm]
    unfold mm_init
    by_cases hc : (cfg.isSome && s.config.isNone) = true
    · rw [if_pos hc, if_pos (by rw [Bool.and_comm] at hc; exact hc)]
    · rw [Bool.not_eq_true] at hc
      rw [if_neg (by simp [hc]),
        if_neg (by rw [Bool.and_comm] at hc; simp [hc])]

/-- After the state holds an instance, every later call returns that
same instance, never touches the connection, and only fills a still
missing config with the first one supplied. -/
theorem runAll_of_some (cs : List (Option Config)) :
    ∀ (s : ClsState) (i : ℕ), s.instId = some i →
      (∀ j ∈ (runAll cs s).2, j = i) ∧
      (runAll cs s).1.instId = some i ∧
      (runAll cs s).1.conn = s.conn ∧
      (runAll cs s).1.config
        = (match s.config with
           | some c => some c
           | none => cs.findSome? (fun c => c)) := by
  induction cs with
  | nil =>
    intro s i h
    refine ⟨by simp [runAll], h, rfl, ?_⟩
    cases hsc : s.config with
    | some c0 => simp [runAll, hsc]
    | none => simp [runAll, hsc, List.findSome?]
  | cons c cs ih =>
    intro s i h
    obtain ⟨h1, h2, h3, h4⟩ := construct_of_some c s i h
    have hrec := ih (construct c s).1 i h2
    have hrw : runAll (c :: cs) s
        = ((runAll cs (construct c s).1).1, (construct c s).2 :: (runAll cs (construct c s).1).2) := rfl
    refine ⟨?_, ?_, ?_, ?_⟩
    · intro j hj
      rw [hrw] at hj
      rcases List.mem_cons.mp hj with rfl | hj'
      · exact h1
      · exact hrec.1 j hj'
    · rw [hrw]
      exact hrec.2.1
    · rw [hrw]
      rw [hrec.2.2.1, h3]
    · rw [hrw]
      rw [hrec.2.2.2, h4]
      cases hsc : s.config with
      | some c0 => simp
      | none =>
        simp only [Option.isNone_none, Bool.and_true]
        cases hc : c with
        | some c0 => simp [List.findSome?_cons]
        | none => simp [List.findSome?_cons]

/-- C9: `MySQLManager` is a process-wide singleton.  For every sequence
of `MySQLManager(config)` calls, all calls return the same objectid,
the class-level connection slot is untouched by construction, and the
configuration finally captured is exactly the first non-`None` config
ever supplied — a later different config never replaces it. -/
theorem mysql_singleton (cfgs : List (Option Config)) :
    (∀ i ∈ (runAll cfgs initState).2, ∀ j ∈ (runAll cfgs initState).2, i = j) ∧
    (runAll cfgs initState).1.conn = none ∧
    (runAll cfgs initState).1.config = cfgs.findSome? (fun c => c) := by
  match cfgs with
  | [] =>
    refine ⟨by simp [runAll], rfl, by simp [runAll, initState, List.findSome?]⟩
  | c :: cs =>
    have hfirst : construct c initState
        = ({ instId := some 0, config := c, conn := none, nextId := 1 }, 0) := by
      unfold construct mm_new initState mm_init
      cases c with
      | none => rfl
      | some c0 => rfl
    have hrw : runAll (c :: cs) initState
        = ((runAll cs (construct c initState).1).1,
            (construct c initState).2 :: (runAll cs (construct c initState).1).2) := rfl
    have hrec := runAll_of_some cs (construct c initState).1 0 (by rw [hfirst])
    have hids : ∀ j ∈ (runAll (c :: cs) initState).2, j = 0 := by
      intro j hj
      rw [hrw] at hj
      rcases List.mem_cons.mp hj with rfl | hj'
      · rw [hfirst]
      · exact hrec.1 j hj'
    refine ⟨?_, ?_, ?_⟩
    · intro i hi j hj
      rw [hids i hi, hids j hj]
    · rw [hrw]
      rw [hrec.2.2.1, hfirst]
    · rw [hrw]
      rw [hrec.2.2.2, hfirst]
      cases c with
      | some c0 => simp [List.findSome?_cons]
      | none => simp [List.findSome?_cons]

end MySQLManager

/- ---------------------------------------------------------------------
execute_many transaction semantics (C10), mysql_manager.py 84-100:

    cursor.executemany(query, data)   -- runs inside the open transaction
    self._connection.commit()         -- makes the pending writes durable
    ...
    except Error:
        self._connection.rollback()   -- discards the pending writes
        return False

A connection is a committed table plus the pending view of the open
transaction; `executemany` applies the statement tuple-by-tuple to the
pending view and may raise at some tuple index (the `failAt` oracle).
--------------------------------------------------------------------- -/

namespace MySQLManager

/-- A MySQL connection: durable committed rows and the pending view of
the open transaction. -/
structure Conn (R : Type) where
  committed : List R
  pending : List R

/-- `commit()`: make the pending view durable. -/
def Conn.commit {R : Type} (c : Conn R) : Conn R :=
  { committed := c.pending, pending := c.pending }

/-- `rollback()`: discard the pending view. -/
def Conn.rollback {R : Type} (c : Conn R) : Conn R :=
  { c with pending := c.committed }

/-- `cursor.executemany(query, data)`: apply the statement to each tuple
in order on the pending view, raising at index `k` when the oracle says
`failAt = some k`. -/
def runTuples {R T : Type} (apply : List R → T → List R) (failAt : Option ℕ) :
    List T → List R → ℕ → Except DBErr (List R)
  | [], rows, _ => .ok rows
  | t :: ts, rows, idx =>
    if failAt = some idx then .error (DBErr.err "executemany failed")
    else runTuples apply failAt ts (apply rows t) (idx + 1)

/-- `MySQLManager.execute_many`: run the batch in the open transaction,
commit on success, roll back and return `False` on error. -/
def execute_many {R T : Type} (apply : List R → T → List R) (failAt : Option ℕ)
    (c : Conn R) (data : List T) : Bool × Conn R :=
  match runTuples apply failAt data c.pending 0 with
  | .ok rows => (true, Conn.commit { c with pending := rows })
  | .error _ => (false, Conn.rollback c)

theorem runTuples_ok {R T : Type} (apply : List R → T → List R)
    (failAt : Option ℕ) :
    ∀ (data : List T) (rows : List R) (idx : ℕ) (out : List R),
      runTuples apply failAt data rows idx = .ok out →
      out = data.foldl apply rows := by
  intro data
  induction data with
  | nil =>
    intro rows idx out h
    simpa [runTuples] using h.symm
  | cons t ts ih =>
    intro rows idx out h
    rw [runTuples] at h
    by_cases hif : failAt = some idx
    · rw [if_pos hif] at h
      exact absurd h (by simp)
    · rw [if_neg hif] at h
      exact ih (apply rows t) (idx + 1) out h

/-- C10: `execute_many` is per-batch atomic.  Starting from a connection
with no pending writes, a successful call commits exactly the fold of
the statement over the batch, and a failed call (an error at any tuple)
rolls the transaction back and returns `False`, leaving the committed
table unchanged with no pending writes. -/
theorem execute_many_atomic {R T : Type} (apply : List R → T → List R)
    (failAt : Option ℕ) (c : Conn R) (data : List T)
    (hclean : c.pending = c.committed) :
    ((execute_many apply failAt c data).1 = true →
      (execute_many apply failAt c data).2.committed
        = data.foldl apply c.committed) ∧
    ((execute_many apply failAt c data).1 = false →
      (execute_many apply failAt c data).2.committed = c.committed ∧
      (execute_many apply failAt c data).2.pending = c.committed) := by
  unfold execute_many
  cases hrun : runTuples apply failAt data c.pending 0 with
  | ok rows =>
    refine ⟨?_, ?_⟩
    · intro _
      have hfold : rows = data.foldl apply c.pending :=
        runTuples_ok apply failAt data c.pending 0 rows hrun
      rw [hfold, hclean]
      rfl
    · intro hc
      exact absurd hc (by simp)
  | error e =>
    refine ⟨?_, ?_⟩
    · intro hc
      exact absurd hc (by simp)
    · intro _
      exact ⟨rfl, by simp [Conn.rollback, hclean]⟩

/-- Witness for C10 at a concrete batch: appending two rows with a
failure at the second tuple leaves the one-row committed table intact. -/
theorem execute_many_atomic_witness :
    (Conn.mk [0] [0] : Conn ℕ).pending = (Conn.mk [0] [0]).committed ∧
    (((execute_many (fun rows t => rows ++ [t]) (some 1)
          (Conn.mk [0] [0]) [7, 8]).1 = true →
        (execute_many (fun rows t => rows ++ [t]) (some 1)
          (Conn.mk [0] [0]) [7, 8]).2.committed
          = ([7, 8] : List ℕ).foldl (fun rows t => rows ++ [t]) [0]) ∧
      ((execute_many (fun rows t => rows ++ [t]) (some 1)
          (Conn.mk [0] [0]) [7, 8]).1 = false →
        (execute_many (fun rows t => rows ++ [t]) (some 1)
          (Conn.mk [0] [0]) [7, 8]).2.committed = [0] ∧
        (execute_many (fun rows t => rows ++ [t]) (some 1)
          (Conn.mk [0] [0]) [7, 8]).2.pending = [0])) :=
  ⟨rfl, execute_many_atomic (fun rows t => rows ++ [t]) (some 1)
    (Conn.mk [0] [0]) [7, 8] rfl⟩

end MySQLManager
